import Mathlib

/-!
Verification of the FIWARE API-blueprint renderer core
(`fiware_api_blueprint_renderer/src/renderer.py`) against its
natural-language specification.

The Python source is shallowly embedded below.  Files are modelled as
lists of lines; every line of the input document is assumed to be
newline-terminated in the file, and lines are represented *without*
their trailing newline (the line-level regexes of the source use `$`,
which matches just before a trailing newline, so the embedding of each
line predicate is unchanged by this convention).  Python dictionaries
whose keys may be absent are modelled with `Option` fields, and Python
code that can raise (`KeyError`, `AttributeError`, …) is modelled as an
`Option`-returning function, `none` meaning the exception.
-/

namespace Fabre

/-- Python 2 `str.strip()` whitespace set (`string.whitespace`). -/
def pyWhitespace (c : Char) : Bool :=
  c = ' ' || c = '\t' || c = '\n' || c = '\r' || c = '\x0b' || c = '\x0c'

/-- Strip `pyWhitespace` from both ends of a character list (Python `strip()`). -/
def stripChars (l : List Char) : List Char :=
  ((l.dropWhile pyWhitespace).reverse.dropWhile pyWhitespace).reverse

/-- Python `s.strip()`. -/
def pyStrip (s : String) : String :=
  ⟨stripChars s.data⟩

/-- A Python-2 `\w` character: ASCII letter, digit, or underscore. -/
def wordChar (c : Char) : Bool :=
  c.isAlphanum || c = '_'

/-- Python `split(sep)` for a one-character separator: split at *every*
occurrence, keeping empty parts (the result always has one more part
than there are separators). -/
def splitOnChar (sep : Char) : List Char → List (List Char)
  | [] => [[]]
  | c :: rest =>
    let r := splitOnChar sep rest
    if c = sep then [] :: r
    else
      match r with
      | h :: t => (c :: h) :: t
      | [] => [[c]]

example : splitOnChar ',' ("a, b,".data) = ["a".data, " b".data, []] := by decide
example : splitOnChar ':' ("no colon".data) = ["no colon".data] := by decide

/-- Collapse every run of spaces/dashes into a single dash
(`re.sub('[-\s]+', '-', value)` on text whose only whitespace is spaces).
`prevSep` records whether the previous character belonged to a run. -/
def collapseSepAux : Bool → List Char → List Char
  | _, [] => []
  | prevSep, c :: rest =>
    if c = ' ' || c = '-' then
      if prevSep then collapseSepAux true rest
      else '-' :: collapseSepAux true rest
    else c :: collapseSepAux false rest

def collapseSep (l : List Char) : List Char :=
  collapseSepAux false l

/-- Modelled from the spec: a slug is a "lower-cased, dash-separated
identifier derived from a human-readable name or URI template" (§4.5
step 9, glossary).  The slug function itself is the external
`markdown.extensions.toc.slugify(value, '-')`, which is not part of this
repository; on ASCII input it keeps word characters, spaces and dashes,
strips and lower-cases the result, and collapses runs of whitespace and
dashes into single dashes. -/
def slugify (s : String) : String :=
  ⟨collapseSep (((stripChars (s.data.filter
      (fun c => wordChar c || c = ' ' || c = '-'))).map Char.toLower))⟩

example : slugify "My Resource" = "my-resource" := by decide
example : slugify "/users/{id}" = "usersid" := by decide
example : slugify "Users" = "users" := by decide

/-- `Char.toLower` never produces an ASCII uppercase letter. -/
theorem toLower_isUpper_false (c : Char) : (Char.toLower c).isUpper = false := by
  show (if c.toNat ≥ 65 ∧ c.toNat ≤ 90 then Char.ofNat (c.toNat + 32) else c).isUpper = false
  by_cases h : c.toNat ≥ 65 ∧ c.toNat ≤ 90
  · rw [if_pos h]
    have hv : (c.toNat + 32).isValidChar := Or.inl (by omega)
    rw [Char.ofNat, dif_pos hv]
    have hval : (Char.ofNatAux (c.toNat + 32) hv).val.toBitVec.toNat = c.toNat + 32 := rfl
    simp only [Char.isUpper]
    have : ¬ ((Char.ofNatAux (c.toNat + 32) hv).val ≤ 90) := by
      rw [UInt32.le_def, BitVec.le_def, hval]
      show ¬ (c.toNat + 32 ≤ 90)
      omega
    simp [this]
  · rw [if_neg h]
    simp only [Char.isUpper]
    rw [Bool.and_eq_false_iff]
    by_cases h65 : (65 : UInt32) ≤ c.val
    · right
      simp only [decide_eq_false_iff_not]
      intro h90
      rw [UInt32.le_def, BitVec.le_def] at h65 h90
      exact h ⟨h65, h90⟩
    · left
      simp only [ge_iff_le, decide_eq_false_iff_not]
      exact h65

/-! ## Blueprint AST data model (§3)

The AST produced by the external structural parser (drafter), as the
enrichment passes read and write it.  `Option` fields model JSON keys
that may be absent (`none` = key not present): `id` and `ignoreTOC` are
written only by the enrichment passes, and a `value`'s `description`
only by the parameter-value annotator. -/

/-- An enumerated value of a parameter (`parameter['values'][i]`). -/
structure ParamValue where
  value : String
  description : Option String := none
deriving DecidableEq, Repr

/-- A parameter of a resource or action (`obj['parameters'][i]`). -/
structure Parameter where
  name : String
  values : List ParamValue := []
deriving DecidableEq, Repr

/-- An action (`resource['actions'][i]`).  `attrUriTemplate` embeds
`action['attributes']['uriTemplate']`. -/
structure Action where
  name : String
  method : String := ""
  attrUriTemplate : String := ""
  description : String := ""
  parameters : List Parameter := []
  id : Option String := none
deriving DecidableEq, Repr

/-- A resource (`resource_group['resources'][i]`). -/
structure Resource where
  name : String
  uriTemplate : String := ""
  description : String := ""
  actions : List Action := []
  parameters : List Parameter := []
  ignoreTOC : Option Bool := none
  id : Option String := none
deriving DecidableEq, Repr

/-- A resource group (`json_content['resourceGroups'][i]`). -/
structure ResourceGroup where
  name : String := ""
  description : String := ""
  resources : List Resource := []
deriving DecidableEq, Repr

/-- A metadata section tree node (§3 `Section`), as built by
`create_json_section` / `parse_metadata_subsections`. -/
inductive Sect where
  | mk (id name body : String) (subsections : List Sect)

def Sect.id : Sect → String
  | .mk i _ _ _ => i

def Sect.name : Sect → String
  | .mk _ n _ _ => n

def Sect.body : Sect → String
  | .mk _ _ b _ => b

def Sect.subsections : Sect → List Sect
  | .mk _ _ _ s => s

/-- Name-keyed form of the metadata tree, produced by
`generate_metadata_dictionary`: `subsections` becomes an insertion-ordered
dictionary (`OrderedDict`) keyed by subsection name. -/
inductive SectDict where
  | mk (id name body : String) (subsections : List (String × SectDict))

/-- `OrderedDict` assignment `d[k] = v`: overwrite in place if the key
exists, otherwise append. -/
def odInsert {α : Type} (m : List (String × α)) (k : String) (v : α) :
    List (String × α) :=
  if m.any (fun p => p.1 = k) then
    m.map (fun p => if p.1 = k then (k, v) else p)
  else
    m ++ [(k, v)]

mutual

/-- `generate_metadata_dictionary(metadata_section)`. -/
def generate_metadata_dictionary : Sect → SectDict
  | .mk i n b subs => .mk i n b (genSubsDict [] subs)

/-- The loop `for subsection in metadata_section['subsections']`. -/
def genSubsDict (acc : List (String × SectDict)) :
    List Sect → List (String × SectDict)
  | [] => acc
  | s :: rest => genSubsDict (odInsert acc s.name (generate_metadata_dictionary s)) rest

end

/-- The AST root (the JSON document handed from pass to pass).  Only the
fields the verified passes read or write are modelled. -/
structure BlueprintAST where
  resourceGroups : List ResourceGroup
  description : String := ""
  api_metadata : Option Sect := none
  api_metadata_dict : Option SectDict := none
  reference_links : Option (List (String × String)) := none

/-! ## Pass 5: `find_and_mark_empty_resources` (lines 659–680)

The second of the two same-named Python definitions — the one that is in
effect — which sets `ignoreTOC` on resources with exactly one action.
(The earlier definition at lines 646–656, which set the resource name to
`None`, is shadowed and never runs.) -/

/-- The body of the resource loop: `if len(resource["actions"]) == 1:
if resource["actions"][0]["name"] == resource["name"]: ... True else ... False`. -/
def markResource (r : Resource) : Resource :=
  match r.actions with
  | [a] => { r with ignoreTOC := some (decide (a.name = r.name)) }
  | _ => r

def find_and_mark_empty_resources (ast : BlueprintAST) : BlueprintAST :=
  { ast with
    resourceGroups := ast.resourceGroups.map (fun g =>
      { g with resources := g.resources.map markResource }) }

/-! ## Pass 9: `generate_resources_and_action_ids` (lines 878–908) -/

/-- The resource id: `'resource_' + slugify(name)` if the name is
nonempty, else `'resource_' + slugify(uriTemplate)`. -/
def resourceIdOf (r : Resource) : String :=
  if r.name.length > 0 then "resource_" ++ slugify r.name
  else "resource_" ++ slugify r.uriTemplate

/-- The action id.  `none` models the `KeyError` raised by
`resource["ignoreTOC"]` when that key has not been written yet. -/
def actionIdOf (r : Resource) (a : Action) : Option String :=
  if a.name.length > 0 then some ("action_" ++ slugify a.name)
  else if a.attrUriTemplate.length > 0 then some ("action_" ++ slugify a.attrUriTemplate)
  else
    match r.ignoreTOC with
    | none => none
    | some b =>
      if b = true then some ("action_" ++ slugify (r.uriTemplate ++ a.method))
      else some ("action_" ++ slugify (r.name ++ a.method))

def genActionId (r : Resource) (a : Action) : Option Action :=
  (actionIdOf r a).map (fun i => { a with id := some i })

def genResourceIds (r : Resource) : Option Resource := do
  let acts ← r.actions.mapM (genActionId r)
  pure { r with id := some (resourceIdOf r), actions := acts }

def generate_resources_and_action_ids (ast : BlueprintAST) : Option BlueprintAST := do
  let groups ← ast.resourceGroups.mapM (fun g => do
    let rs ← g.resources.mapM genResourceIds
    pure { g with resources := rs })
  pure { ast with resourceGroups := groups }

/-! ## Helper lemmas -/

theorem str_length_pos_of_ne (s : String) (h : s ≠ "") : s.length > 0 := by
  cases s with
  | mk data =>
    cases data with
    | nil => exact absurd rfl h
    | cons c cs => simp [String.length]

theorem mem_collapseSepAux (p : Bool) (l : List Char) (c : Char)
    (h : c ∈ collapseSepAux p l) : c = '-' ∨ (c ∈ l ∧ c ≠ ' ') := by
  induction l generalizing p with
  | nil => simp [collapseSepAux] at h
  | cons d rest ih =>
    unfold collapseSepAux at h
    by_cases hd : d = ' ' || d = '-'
    · rw [if_pos hd] at h
      by_cases hp : p
      · rw [if_pos hp] at h
        rcases ih true h with h' | ⟨h1, h2⟩
        · exact Or.inl h'
        · exact Or.inr ⟨List.mem_cons_of_mem _ h1, h2⟩
      · rw [if_neg hp] at h
        rcases List.mem_cons.mp h with h' | h'
        · exact Or.inl h'
        · rcases ih true h' with h'' | ⟨h1, h2⟩
          · exact Or.inl h''
          · exact Or.inr ⟨List.mem_cons_of_mem _ h1, h2⟩
    · rw [if_neg hd] at h
      rcases List.mem_cons.mp h with h' | h'
      · subst h'
        right
        refine ⟨List.mem_cons_self _ _, ?_⟩
        intro hsp
        subst hsp
        simp at hd
      · rcases ih false h' with h'' | ⟨h1, h2⟩
        · exact Or.inl h''
        · exact Or.inr ⟨List.mem_cons_of_mem _ h1, h2⟩

/-- Every character of a slug is non-uppercase and is not a space. -/
theorem slugify_chars (s : String) (c : Char) (h : c ∈ (slugify s).data) :
    c.isUpper = false ∧ c ≠ ' ' := by
  unfold slugify at h
  simp only at h
  rcases mem_collapseSepAux false _ c h with h' | ⟨h1, h2⟩
  · subst h'
    exact ⟨by decide, by decide⟩
  · rcases List.mem_map.mp h1 with ⟨d, _, hd⟩
    subst hd
    exact ⟨toLower_isUpper_false d, h2⟩

/-! ## Claim C4: resource and action id generation -/

/-- An index-based view of a resource in the AST. -/
def getResource (ast : BlueprintAST) (gi ri : Nat) : Option Resource :=
  match ast.resourceGroups[gi]? with
  | none => none
  | some g => g.resources[ri]?

/-- C4 (counterexample): two distinct resources with identical (nonempty)
names and non-colliding URI templates receive the *same* generated id,
refuting the claimed injectivity: the URI-template fallback is only used
when the name is empty. -/
theorem C4_counterexample :
    let r₁ : Resource := { name := "Users", uriTemplate := "/a" }
    let r₂ : Resource := { name := "Users", uriTemplate := "/b" }
    r₁ ≠ r₂ ∧ r₁.name = r₂.name ∧ r₁.uriTemplate ≠ r₂.uriTemplate ∧
      resourceIdOf r₁ = resourceIdOf r₂ := by
  refine ⟨by decide, rfl, by decide, ?_⟩
  decide

/-- C4 (amended): id generation is deterministic — a resource's id is a
function of its name alone whenever the name is nonempty (hence two
resources with equal nonempty names share an id even if their URI
templates differ), with fallback to the URI template only for an empty
name; action ids follow the fallback ordering name → action URI template
→ (resource URI template or resource name, per `ignoreTOC`) + method;
and every slug character is lower-cased (never uppercase) and
dash-separated (never a space). -/
theorem C4_id_generation :
    (∀ r₁ r₂ : Resource, r₁.name = r₂.name → r₁.name ≠ "" →
      resourceIdOf r₁ = resourceIdOf r₂) ∧
    (∀ r : Resource, r.name = "" →
      resourceIdOf r = "resource_" ++ slugify r.uriTemplate) ∧
    (∀ (r : Resource) (a : Action),
      (a.name ≠ "" → actionIdOf r a = some ("action_" ++ slugify a.name)) ∧
      (a.name = "" → a.attrUriTemplate ≠ "" →
        actionIdOf r a = some ("action_" ++ slugify a.attrUriTemplate)) ∧
      (a.name = "" → a.attrUriTemplate = "" → r.ignoreTOC = some true →
        actionIdOf r a = some ("action_" ++ slugify (r.uriTemplate ++ a.method))) ∧
      (a.name = "" → a.attrUriTemplate = "" → r.ignoreTOC = some false →
        actionIdOf r a = some ("action_" ++ slugify (r.name ++ a.method)))) ∧
    (∀ (s : String), ∀ c ∈ (slugify s).data, c.isUpper = false ∧ c ≠ ' ') := by
  refine ⟨?_, ?_, ?_, ?_⟩
  · intro r₁ r₂ hname hne
    unfold resourceIdOf
    rw [if_pos (str_length_pos_of_ne _ hne), hname,
      if_pos (str_length_pos_of_ne _ (hname ▸ hne))]
  · intro r hname
    unfold resourceIdOf
    rw [if_neg]
    rw [hname]
    simp [String.length]
  · intro r a
    refine ⟨?_, ?_, ?_, ?_⟩
    · intro h
      unfold actionIdOf
      rw [if_pos (str_length_pos_of_ne _ h)]
    · intro h h'
      unfold actionIdOf
      rw [if_neg (by rw [h]; simp [String.length]),
        if_pos (str_length_pos_of_ne _ h')]
    · intro h h' hig
      unfold actionIdOf
      rw [if_neg (by rw [h]; simp [String.length]),
        if_neg (by rw [h']; simp [String.length]), hig]
      simp
    · intro h h' hig
      unfold actionIdOf
      rw [if_neg (by rw [h]; simp [String.length]),
        if_neg (by rw [h']; simp [String.length]), hig]
      simp
  · intro s c h
    exact slugify_chars s c h

/-- Witness for `C4_id_generation` at concrete inputs. -/
theorem C4_id_generation_witness :
    resourceIdOf { name := "My API", uriTemplate := "/x" } =
      resourceIdOf { name := "My API", uriTemplate := "/y" } ∧
    resourceIdOf { name := "", uriTemplate := "/users" } =
      "resource_" ++ slugify "/users" ∧
    actionIdOf { name := "R" } { name := "List Users" } =
      some ("action_" ++ slugify "List Users") := by
  refine ⟨?_, ?_, ?_⟩
  · exact C4_id_generation.1 _ _ rfl (by decide)
  · exact C4_id_generation.2.1 _ rfl
  · exact (C4_id_generation.2.2.1 { name := "R" } { name := "List Users" }).1 (by decide)

/-! ## Claim C10: effect of `find_and_mark_empty_resources` -/

theorem markResource_fields (r : Resource) :
    (markResource r).name = r.name ∧
    (markResource r).uriTemplate = r.uriTemplate ∧
    (markResource r).description = r.description ∧
    (markResource r).actions = r.actions ∧
    (markResource r).parameters = r.parameters ∧
    (markResource r).id = r.id := by
  unfold markResource
  split <;> simp_all

/-- C10 (counterexample): a resource with two actions does *not* get an
`ignoreTOC` key from the marking pass (the claim says every resource gets
one, `false` when the condition fails). -/
theorem C10_counterexample :
    let ast : BlueprintAST :=
      { resourceGroups := [{ resources :=
          [{ name := "R", actions := [{ name := "A" }, { name := "B" }] }] }] }
    getResource (find_and_mark_empty_resources ast) 0 0 =
      some { name := "R", actions := [{ name := "A" }, { name := "B" }] } ∧
    (match getResource (find_and_mark_empty_resources ast) 0 0 with
      | some r => r.ignoreTOC
      | none => none) = none := by
  exact ⟨rfl, rfl⟩

/-- C10 (amended): after the marking pass, every resource that has
exactly one action carries `ignoreTOC` — `true` iff that action's name
equals the resource's name; resources with zero or several actions keep
their previous `ignoreTOC` (in particular it stays undefined); no other
resource field is modified. -/
theorem C10_mark_empty_resources (ast : BlueprintAST) (gi ri : Nat)
    (r : Resource) (h : getResource ast gi ri = some r) :
    getResource (find_and_mark_empty_resources ast) gi ri = some (markResource r) ∧
    (markResource r).ignoreTOC = (match r.actions with
      | [a] => some (decide (a.name = r.name))
      | _ => r.ignoreTOC) ∧
    (markResource r).name = r.name ∧
    (markResource r).uriTemplate = r.uriTemplate ∧
    (markResource r).description = r.description ∧
    (markResource r).actions = r.actions ∧
    (markResource r).parameters = r.parameters ∧
    (markResource r).id = r.id := by
  obtain ⟨h1, h2, h3, h4, h5, h6⟩ := markResource_fields r
  refine ⟨?_, ?_, h1, h2, h3, h4, h5, h6⟩
  · unfold getResource at h
    unfold getResource find_and_mark_empty_resources
    simp only [List.getElem?_map]
    cases hg : ast.resourceGroups[gi]? with
    | none => rw [hg] at h; exact absurd h (by simp)
    | some g =>
      rw [hg] at h
      simp only at h
      simp only [Option.map_some', List.getElem?_map, h]
  · unfold markResource
    split
    · next a heq => rw [heq]
    · next hne =>
      cases hact : r.actions with
      | nil => rfl
      | cons a rest =>
        cases rest with
        | nil => exact absurd hact (by intro hc; exact hne a hc)
        | cons b rest' => rfl

/-- Witness for `C10_mark_empty_resources` at a concrete AST. -/
theorem C10_mark_empty_resources_witness :
    let ast : BlueprintAST :=
      { resourceGroups := [{ resources := [{ name := "A", actions := [{ name := "A" }] }] }] }
    getResource ast 0 0 = some { name := "A", actions := [{ name := "A" }] } ∧
    getResource (find_and_mark_empty_resources ast) 0 0 =
      some (markResource { name := "A", actions := [{ name := "A" }] }) := by
  intro ast
  exact ⟨rfl, (C10_mark_empty_resources ast 0 0 _ rfl).1⟩

/-! ## Claim C1: reordering pass 9 (id generation) and pass 5 (TOC marking) -/

/-- Every action of the AST has a nonempty name or a nonempty URI
template, so pass 9 never reaches the branch that reads
`resource["ignoreTOC"]`. -/
def astActionsOK (ast : BlueprintAST) : Prop :=
  ∀ g ∈ ast.resourceGroups, ∀ r ∈ g.resources, ∀ a ∈ r.actions,
    a.name ≠ "" ∨ a.attrUriTemplate ≠ ""

instance (ast : BlueprintAST) : Decidable (astActionsOK ast) := by
  unfold astActionsOK
  infer_instance

/-- The closed form of pass 9 on a resource whose actions never reach
the `ignoreTOC` fallback. -/
def idResource (r : Resource) : Resource :=
  { r with id := some (resourceIdOf r),
           actions := r.actions.map (fun a => { a with id := actionIdOf r a }) }

theorem actionIdOf_eq_of_ok (r r' : Resource) (a : Action)
    (h : a.name ≠ "" ∨ a.attrUriTemplate ≠ "") :
    actionIdOf r a = actionIdOf r' a := by
  unfold actionIdOf
  rcases h with h | h
  · have hp := str_length_pos_of_ne _ h
    rw [if_pos hp, if_pos hp]
  · by_cases hn : a.name.length > 0
    · rw [if_pos hn, if_pos hn]
    · have hp := str_length_pos_of_ne _ h
      rw [if_neg hn, if_neg hn, if_pos hp, if_pos hp]

theorem actionIdOf_isSome_of_ok (r : Resource) (a : Action)
    (h : a.name ≠ "" ∨ a.attrUriTemplate ≠ "") :
    (actionIdOf r a).isSome := by
  unfold actionIdOf
  rcases h with h | h
  · rw [if_pos (str_length_pos_of_ne _ h)]
    rfl
  · by_cases hn : a.name.length > 0
    · rw [if_pos hn]
      rfl
    · rw [if_neg hn, if_pos (str_length_pos_of_ne _ h)]
      rfl

theorem genActionId_of_ok (r : Resource) (a : Action)
    (h : a.name ≠ "" ∨ a.attrUriTemplate ≠ "") :
    genActionId r a = some { a with id := actionIdOf r a } := by
  have hs := actionIdOf_isSome_of_ok r a h
  unfold genActionId
  cases hi : actionIdOf r a with
  | none => rw [hi] at hs; exact absurd hs (by simp)
  | some i => simp [hi]

theorem mapM_genActionId_of_ok (r : Resource) (as : List Action)
    (h : ∀ a ∈ as, a.name ≠ "" ∨ a.attrUriTemplate ≠ "") :
    as.mapM (genActionId r) = some (as.map (fun a => { a with id := actionIdOf r a })) := by
  induction as with
  | nil => rfl
  | cons a as ih =>
    rw [List.mapM_cons, genActionId_of_ok r a (h a (List.mem_cons_self a as)),
      ih (fun a' ha' => h a' (List.mem_cons_of_mem _ ha'))]
    rfl

theorem genResourceIds_of_ok (r : Resource)
    (h : ∀ a ∈ r.actions, a.name ≠ "" ∨ a.attrUriTemplate ≠ "") :
    genResourceIds r = some (idResource r) := by
  unfold genResourceIds idResource
  rw [mapM_genActionId_of_ok r r.actions h]
  rfl

theorem resourceIdOf_mark (r : Resource) :
    resourceIdOf (markResource r) = resourceIdOf r := by
  obtain ⟨hn, hu, -, -, -, -⟩ := markResource_fields r
  unfold resourceIdOf
  rw [hn, hu]

theorem markResource_map_update (r : Resource) (i : Option String) (f : Action → Action)
    (hf : ∀ a, (f a).name = a.name) :
    markResource { r with id := i, actions := r.actions.map f } =
    { markResource r with id := i, actions := r.actions.map f } := by
  unfold markResource
  cases hact : r.actions with
  | nil => simp
  | cons a rest =>
    cases rest with
    | nil => simp [hf a]
    | cons b rest' => simp

theorem idResource_mark_comm (r : Resource)
    (h : ∀ a ∈ r.actions, a.name ≠ "" ∨ a.attrUriTemplate ≠ "") :
    idResource (markResource r) = markResource (idResource r) := by
  obtain ⟨hn, hu, hd, ha, hp, hi⟩ := markResource_fields r
  have hact : (markResource r).actions.map (fun a => { a with id := actionIdOf (markResource r) a })
      = r.actions.map (fun a => { a with id := actionIdOf r a }) := by
    rw [ha]
    exact List.map_congr_left (fun a haM => by rw [actionIdOf_eq_of_ok _ r a (h a haM)])
  have hupd := markResource_map_update r (some (resourceIdOf r))
    (fun a => { a with id := actionIdOf r a }) (fun a => rfl)
  unfold idResource
  rw [resourceIdOf_mark, hact, hupd]

theorem mapM_genResourceIds_of_ok (rs : List Resource)
    (h : ∀ r ∈ rs, ∀ a ∈ r.actions, a.name ≠ "" ∨ a.attrUriTemplate ≠ "") :
    rs.mapM genResourceIds = some (rs.map idResource) := by
  induction rs with
  | nil => rfl
  | cons r rs ih =>
    rw [List.mapM_cons, genResourceIds_of_ok r (h r (List.mem_cons_self r rs)),
      ih (fun r' hr' => h r' (List.mem_cons_of_mem _ hr'))]
    rfl

theorem mapM_groups_of_ok (gs : List ResourceGroup)
    (h : ∀ g ∈ gs, ∀ r ∈ g.resources, ∀ a ∈ r.actions,
      a.name ≠ "" ∨ a.attrUriTemplate ≠ "") :
    gs.mapM (fun g => do
      let rs ← g.resources.mapM genResourceIds
      pure { g with resources := rs }) =
    some (gs.map (fun g => { g with resources := g.resources.map idResource })) := by
  induction gs with
  | nil => rfl
  | cons g gs ih =>
    rw [List.mapM_cons,
      mapM_genResourceIds_of_ok g.resources (h g (List.mem_cons_self g gs)),
      ih (fun g' hg' r hr a ha => h g' (List.mem_cons_of_mem _ hg') r hr a ha)]
    rfl

theorem gen_ids_of_ok (ast : BlueprintAST) (h : astActionsOK ast) :
    generate_resources_and_action_ids ast =
      some { ast with resourceGroups := ast.resourceGroups.map (fun g =>
        { g with resources := g.resources.map idResource }) } := by
  unfold generate_resources_and_action_ids
  rw [mapM_groups_of_ok ast.resourceGroups h]
  rfl

theorem astActionsOK_mark (ast : BlueprintAST) (h : astActionsOK ast) :
    astActionsOK (find_and_mark_empty_resources ast) := by
  intro g hg r hr a ha
  unfold find_and_mark_empty_resources at hg
  simp only [List.mem_map] at hg
  obtain ⟨g₀, hg₀, rfl⟩ := hg
  simp only [List.mem_map] at hr
  obtain ⟨r₀, hr₀, rfl⟩ := hr
  rw [(markResource_fields r₀).2.2.2.1] at ha
  exact h g₀ hg₀ r₀ hr₀ a ha

/-- C1 (amended): when every action has a nonempty name or a nonempty
URI template — so the `ignoreTOC`-reading fallback of pass 9 is never
exercised — running pass 9 (`generate_resources_and_action_ids`) before
pass 5 (`find_and_mark_empty_resources`) produces exactly the same final
AST as running pass 5 before pass 9.  (Without that restriction, pass 9
run first can fail with a `KeyError` on the yet-unwritten `ignoreTOC`
key — see the counterexample.) -/
theorem C1_pass_reorder (ast : BlueprintAST) (h : astActionsOK ast) :
    (generate_resources_and_action_ids ast).map find_and_mark_empty_resources =
    generate_resources_and_action_ids (find_and_mark_empty_resources ast) := by
  rw [gen_ids_of_ok ast h, gen_ids_of_ok _ (astActionsOK_mark ast h)]
  simp only [Option.map_some']
  unfold find_and_mark_empty_resources
  simp only [List.map_map]
  congr 1
  congr 1
  apply List.map_congr_left
  intro g hg
  simp only [Function.comp]
  congr 1
  simp only [List.map_map]
  apply List.map_congr_left
  intro r hr
  simp only [Function.comp]
  exact (idResource_mark_comm r (h g hg r hr)).symm

/-- Witness for `C1_pass_reorder` at a concrete AST (one resource whose
single action shares its nonempty name). -/
theorem C1_pass_reorder_witness :
    let ast : BlueprintAST := { resourceGroups := [{ resources :=
      [{ name := "Entry", uriTemplate := "/entry",
         actions := [{ name := "Entry", method := "GET" }] }] }] }
    astActionsOK ast ∧
    (generate_resources_and_action_ids ast).map find_and_mark_empty_resources =
      generate_resources_and_action_ids (find_and_mark_empty_resources ast) := by
  intro ast
  exact ⟨by decide, C1_pass_reorder ast (by decide)⟩

/-- C1 (counterexample): on an AST satisfying the claim's premise — a
resource with exactly one action whose name equals the resource's name
(both empty here) — running pass 9 first aborts with a `KeyError`
(modelled `none`) while pass 5 first succeeds, so the two orders do not
agree for every such AST. -/
theorem C1_counterexample :
    let ast : BlueprintAST := { resourceGroups := [{ resources :=
      [{ name := "", uriTemplate := "/u",
         actions := [{ name := "", method := "GET" }] }] }] }
    (∃ g ∈ ast.resourceGroups, ∃ r ∈ g.resources,
        r.actions.length = 1 ∧ ∃ a ∈ r.actions, a.name = r.name) ∧
    (generate_resources_and_action_ids ast).map find_and_mark_empty_resources = none ∧
    (generate_resources_and_action_ids (find_and_mark_empty_resources ast)).isSome = true := by
  refine ⟨?_, rfl, rfl⟩
  decide

/-! ## Claim C5: `add_metadata_to_json` (lines 297–315)

The pass copies every key of the metadata section into a fresh
`api_metadata` object.  The line that would additionally store the
name-keyed form — `json_content['api_metadata_dict'] =
generate_metadata_dictionary( metadata )` — is commented out in the
source (line 312), so `api_metadata_dict` is never written. -/

def add_metadata_to_json (metadata : Sect) (ast : BlueprintAST) : BlueprintAST :=
  { ast with api_metadata := some metadata }

/-- C5 (counterexample): after the metadata-merge pass, the AST root does
*not* carry the name-keyed map of the metadata tree: `api_metadata_dict`
is absent even though the merged tree has a named subsection that the
claim says must be retrievable by name. -/
theorem C5_counterexample :
    let metadata : Sect := .mk "root" "root" ""
      [.mk "copyright" "Copyright" "(c) 2015" []]
    let ast : BlueprintAST := { resourceGroups := [] }
    (add_metadata_to_json metadata ast).api_metadata = some metadata ∧
    (add_metadata_to_json metadata ast).api_metadata_dict = none := by
  exact ⟨rfl, rfl⟩

/-- C5 (amended): the metadata-merge pass exposes the metadata Section
tree only in its ordered form (`api_metadata`, subsection order =
document order); the name-keyed representation
(`generate_metadata_dictionary` / `api_metadata_dict`) is present in the
code but disabled, so the pass leaves `api_metadata_dict` untouched. -/
theorem C5_metadata_merge (metadata : Sect) (ast : BlueprintAST) :
    (add_metadata_to_json metadata ast).api_metadata = some metadata ∧
    (add_metadata_to_json metadata ast).api_metadata_dict = ast.api_metadata_dict := by
  exact ⟨rfl, rfl⟩

/-! ## Claim C2: `get_links_from_description` (lines 683–719)

The three `re.findall` loops are embedded as character-list scanners.
`re.findall` tries to match at each position from left to right and
resumes after the end of every successful match; each scanner mirrors
that.  The scanners consume at least one character per step, so they are
written with a fuel argument (initialised to the input length, which the
scan can never exhaust) to keep them structurally recursive. -/

/-- A character allowed inside the text/ref of a bracket link
(`[^\(\)\[\]]`). -/
def linkChar (c : Char) : Bool :=
  !(c = '(' || c = ')' || c = '[' || c = ']')

/-- `link_regex.findall`: pattern
`\[(?P<linkText>[^\(\)\[\]]*)\]\((?P<linkRef>[^\(\)\[\]]*)\)`,
returning `(linkText, linkRef)` pairs. -/
def bracketScan : Nat → List Char → List (String × String)
  | 0, _ => []
  | _ + 1, [] => []
  | fuel + 1, c :: rest =>
    if c = '[' then
      let txt := rest.takeWhile linkChar
      match rest.drop txt.length with
      | ']' :: '(' :: rest2 =>
        let ref := rest2.takeWhile linkChar
        match rest2.drop ref.length with
        | ')' :: rest3 => (⟨txt⟩, ⟨ref⟩) :: bracketScan fuel rest3
        | _ => bracketScan fuel rest
      | _ => bracketScan fuel rest
    else bracketScan fuel rest

/-- The literal scheme `http[s]?://` at the head of the list (the `[s]?`
is greedy; backtracking can never help because `s ≠ ':'`). -/
def schemeSplit : List Char → Option (List Char × List Char)
  | 'h' :: 't' :: 't' :: 'p' :: 's' :: ':' :: '/' :: '/' :: r =>
    some (['h', 't', 't', 'p', 's', ':', '/', '/'], r)
  | 'h' :: 't' :: 't' :: 'p' :: ':' :: '/' :: '/' :: r =>
    some (['h', 't', 't', 'p', ':', '/', '/'], r)
  | _ => none

/-- One step of `dotStarThen`: prefer the (greedy) deeper match `rec`,
else accept a split exactly here when the head is the terminator. -/
def dotStarStep (t c : Char) (rec : Option (List Char × List Char))
    (rest : List Char) : Option (List Char × List Char) :=
  match rec with
  | some (u, after) => some (c :: u, after)
  | none => if c = t then some ([], rest) else none

/-- Greedy `(.*)` followed by the literal terminator `t`: split before
the *last* occurrence of `t` reachable without crossing a newline (`.`
does not match `\n`); returns the consumed part and the unconsumed
suffix.  Preferring the recursive call implements the greediness. -/
def dotStarThen (t : Char) : List Char → Option (List Char × List Char)
  | [] => none
  | c :: rest => dotStarStep t c (if c = '\n' then none else dotStarThen t rest) rest

/-- `auto_link_regex.findall`: pattern `\<(?P<linkRef>http[s]?://.*)\>`. -/
def autoScan : Nat → List Char → List String
  | 0, _ => []
  | _ + 1, [] => []
  | fuel + 1, c :: rest =>
    if c = '<' then
      match schemeSplit rest with
      | some (scheme, rest2) =>
        match dotStarThen '>' rest2 with
        | some (u, after) => (⟨scheme ++ u⟩ : String) :: autoScan fuel after
        | none => autoScan fuel rest
      | none => autoScan fuel rest
    else autoScan fuel rest

/-- Greedy `(.*)\"\>([^\<]*)\</a>`: find the *last* `">` reachable
without crossing a newline such that it is followed by a maximal
`'<'`-free run and then the literal `</a>`; returns
`(ref-part, text-part, suffix after the match)`. -/
def htmlTail : List Char → Option (List Char × List Char × List Char)
  | [] => none
  | c :: rest =>
    match (if c = '\n' then none else htmlTail rest) with
    | some (ref, txt, after) => some (c :: ref, txt, after)
    | none =>
      if c = '"' then
        match rest with
        | '>' :: rest2 =>
          let txt := rest2.takeWhile (fun d => !(d = '<'))
          match rest2.drop txt.length with
          | '<' :: '/' :: 'a' :: '>' :: after => some ([], txt, after)
          | _ => none
        | _ => none
      else none

/-- `html_link_regex.findall`: pattern
`\<a href=\"(?P<linkRef>http[s]?://.*)\"\>(?P<linkText>[^\<]*)\</a>`,
returning `(linkRef, linkText)` pairs. -/
def htmlScan : Nat → List Char → List (String × String)
  | 0, _ => []
  | _ + 1, [] => []
  | fuel + 1, c :: rest =>
    if c = '<' then
      match rest with
      | 'a' :: ' ' :: 'h' :: 'r' :: 'e' :: 'f' :: '=' :: '"' :: rest1 =>
        match schemeSplit rest1 with
        | some (scheme, rest2) =>
          match htmlTail rest2 with
          | some (ref, txt, after) =>
            (⟨scheme ++ ref⟩, ⟨txt⟩) :: htmlScan fuel after
          | none => htmlScan fuel rest
        | none => htmlScan fuel rest
      | _ => htmlScan fuel rest
    else htmlScan fuel rest

/-- A link collected by `get_links_from_description`. -/
structure Link where
  title : String
  url : String
deriving DecidableEq, Repr

/-- `get_links_from_description(description)`: the three notations are a
fallback chain — autolinks are only tried when no bracket link matched,
and anchor tags only when no autolink matched. -/
def get_links_from_description (description : String) : List Link :=
  let link_matches := bracketScan description.length description.data
  if link_matches.isEmpty = false then
    link_matches.map (fun p => { title := p.1, url := p.2 })
  else
    let auto_matches := autoScan description.length description.data
    if auto_matches.isEmpty = false then
      auto_matches.map (fun u => { title := u, url := u })
    else
      (htmlScan description.length description.data).map
        (fun p => { title := p.2, url := p.1 })

example : get_links_from_description "see <http://y> now" =
    [{ title := "http://y", url := "http://y" }] := by decide
example : get_links_from_description "<a href=\"http://z\">Z page</a>" =
    [{ title := "Z page", url := "http://z" }] := by decide

/-- C2 (counterexample): on `"See [docs](http://x) and <http://y>"` the
extraction does *not* return the two claimed links — the angle-bracket
autolink is skipped because a bracket link matched first. -/
theorem C2_counterexample :
    get_links_from_description "See [docs](http://x) and <http://y>" ≠
      [{ title := "docs", url := "http://x" }, { title := "http://y", url := "http://y" }] := by
  decide

/-- C2 (amended): on `"See [docs](http://x) and <http://y>"` the
extraction returns exactly one link, `{title:"docs", url:"http://x"}`:
the three link notations form a fallback chain, and angle-bracket
autolinks are only extracted when no bracket link is present. -/
theorem C2_link_extraction :
    get_links_from_description "See [docs](http://x) and <http://y>" =
      [{ title := "docs", url := "http://x" }] := by
  decide

/-! ## Claims C6/C7: `parse_property_member_declaration` (lines 458–498)

The declaration regex is
`^[ ]*[-|+][ ](?P<property_name>\w+)[ ]*(?:[[: ][\w, ]*]?[ ]*\((?P<type_definition_list>[\w\W ]+)\))?[ ]*(?:[-](?P<property_description>[ \w\W]+))?\Z`.
It is embedded as a backtracking matcher specialised to this pattern.
Forced choices (no backtracking can change them, noted inline):
the leading `[ ]*` and the `\w+` name are maximal, because the character
class that follows each cannot match the character that ended the run.
The remaining quantifiers are enumerated in the engine's preference
order: longest first for greedy quantifiers, present-before-absent for
`?`. -/

/-- The named groups of a successful match of the declaration regex. -/
structure PropGroups where
  name : List Char
  typeList : Option (List Char)
  desc : Option (List Char)
deriving DecidableEq, Repr

/-- Candidate remainders for a greedy `[ ]*`, longest-consumed first. -/
def spacesCandidates (r : List Char) : List (List Char) :=
  let k := (r.takeWhile (fun c => c = ' ')).length
  (List.range (k + 1)).map (fun i => r.drop (k - i))

/-- Candidate remainders for `]?`, present first. -/
def bracketOpts : List Char → List (List Char)
  | ']' :: rest => [rest, ']' :: rest]
  | r => [r]

/-- Candidates for greedy `([\w\W ]+)\)` (the parenthesised attribute
list): `[\w\W ]` matches every character, so the candidates are the
splits at each `')'`, rightmost first, with a nonempty group. -/
def closeSplits (r : List Char) : List (List Char × List Char) :=
  (((List.range r.length).filter (fun j => r[j]? = some ')')).reverse).filterMap
    (fun j => if 0 < j then some (r.take j, r.drop (j + 1)) else none)

/-- Candidates of the optional group
`[[: ][\w, ]*]?[ ]*\((?P<type_definition_list>[\w\W ]+)\)`:
each candidate is `(captured list, remainder)`, in preference order. -/
def matchAttrGroup : List Char → List (List Char × List Char)
  | [] => []
  | c₀ :: r' =>
    if c₀ = '[' || c₀ = ':' || c₀ = ' ' then
      let maxT := (r'.takeWhile (fun c => wordChar c || c = ',' || c = ' ')).length
      ((List.range (maxT + 1)).map (fun i => r'.drop (maxT - i))).flatMap (fun r₂ =>
        (bracketOpts r₂).flatMap (fun r₃ =>
          (spacesCandidates r₃).flatMap (fun r₄ =>
            match r₄ with
            | '(' :: r₅ => closeSplits r₅
            | _ => [])))
    else []

/-- The pattern tail `[ ]*(?:[-](?P<property_description>[ \w\W]+))?\Z`.
The `[ ]*` here is forced maximal: with fewer spaces the next character
is `' '`, which neither `[-]` nor `\Z` accepts.  Returns the description
group of a successful match. -/
def matchTailDesc (r : List Char) : Option (Option (List Char)) :=
  match r.dropWhile (fun c => c = ' ') with
  | [] => some none
  | '-' :: d => if d.isEmpty then none else some (some d)
  | _ => none

/-- The part of the pattern after the property name:
`[ ]*(?:attr-group)?[ ]*(?:[-]desc)?\Z`, with the engine's backtracking
order (outer `[ ]*` longest first; attribute group present before
absent). -/
def matchAfterName (name : List Char) (r : List Char) : Option PropGroups :=
  (spacesCandidates r).findSome? (fun r₁ =>
    let cands : List (Option (List Char) × List Char) :=
      ((matchAttrGroup r₁).map (fun (p : List Char × List Char) => (some p.1, p.2))) ++
        [(none, r₁)]
    cands.findSome? (fun q => (matchTailDesc q.2).map (fun d => ⟨name, q.1, d⟩)))

/-- `declaration_regex.match(s)`: `none` models a failed match. -/
def propertyLineMatch (cs : List Char) : Option PropGroups :=
  match cs.dropWhile (fun c => c = ' ') with
  | b :: ' ' :: cs₂ =>
    if b = '-' || b = '|' || b = '+' then
      let name := cs₂.takeWhile wordChar
      if name.isEmpty then none
      else matchAfterName name (cs₂.drop name.length)
    else none
  | _ => none

/-- The MSON `type_attribute` reserved keywords. -/
def msonReserved : List String := ["required", "optional", "fixed", "sample", "default"]

/-- A parsed property declaration.  `type?` is the `'type'` key, absent
when no non-reserved attribute token occurred; `subproperties` and
`values` are initialised empty by this function (they are filled only by
the recursive data-structure walker). -/
inductive PropertyDecl where
  | mk (name : String) (type? : Option String) (required : Bool)
       (description : Option String)
       (subproperties : List PropertyDecl) (values : List ParamValue)

def PropertyDecl.name : PropertyDecl → String
  | .mk n _ _ _ _ _ => n

def PropertyDecl.type? : PropertyDecl → Option String
  | .mk _ t _ _ _ _ => t

def PropertyDecl.required : PropertyDecl → Bool
  | .mk _ _ r _ _ _ => r

def PropertyDecl.description : PropertyDecl → Option String
  | .mk _ _ _ d _ _ => d

/-- The result of `parse_property_member_declaration`: the `''` input
returns the empty dict `{}`; a match failure (or a match without
parenthesised attribute list, whose `None.split(',')` raises) is an
uncaught exception. -/
inductive PropParseResult where
  | emptyDecl
  | parseError
  | ok (p : PropertyDecl)

/-- One step of the loop
`for type_specification_attribute in declaration_dict['type_definition_list'].split(',')`:
a non-reserved token overwrites the type; the token `required` sets the
flag. -/
def typeReqStep (acc : Option String × Bool) (tok : String) : Option String × Bool :=
  let ts := pyStrip tok
  if msonReserved.contains ts then
    (if ts = "required" then (acc.1, true) else acc)
  else (some ts, acc.2)

def parse_property_member_declaration (s : String) : PropParseResult :=
  if s = "" then .emptyDecl
  else
    match propertyLineMatch s.data with
    | none => .parseError
    | some g =>
      match g.typeList with
      | none => .parseError
      | some L =>
        let tr := ((splitOnChar ',' L).map (fun cs => (⟨cs⟩ : String))).foldl
          typeReqStep (none, false)
        .ok (.mk (String.mk g.name) tr.1 tr.2 (g.desc.map (fun d => String.mk d)) [] [])

example : propertyLineMatch ("+ x (a, required)").data =
    some ⟨"x".data, some ("a, required").data, none⟩ := rfl

theorem getLast?_cons_or {α : Type} (x : α) (l : List α) :
    (x :: l).getLast? = l.getLast?.or (some x) := by
  cases l with
  | nil => rfl
  | cons y t =>
    rw [List.getLast?_cons_cons, List.getLast?_eq_getLast (y :: t) (by simp),
      Option.or_some]

/-- In a left fold of `typeReqStep`, the final type is the last stripped
non-reserved token (falling back to the accumulator) and the flag records
whether any token strips to `required`. -/
theorem typeReqStep_foldl (toks : List String) (acc : Option String × Bool) :
    (toks.foldl typeReqStep acc).1 =
      (((toks.map pyStrip).filter (fun t => !msonReserved.contains t)).getLast?).or acc.1 ∧
    (toks.foldl typeReqStep acc).2 =
      (acc.2 || toks.any (fun t => pyStrip t = "required")) := by
  induction toks generalizing acc with
  | nil => simp
  | cons t toks ih =>
    simp only [List.foldl_cons, List.map_cons, List.any_cons]
    by_cases hres : msonReserved.contains (pyStrip t)
    · have hfilter : List.filter (fun t => !msonReserved.contains t)
          (pyStrip t :: toks.map pyStrip) =
          List.filter (fun t => !msonReserved.contains t) (toks.map pyStrip) := by
        rw [List.filter_cons, if_neg (by rw [hres]; simp)]
      rw [hfilter]
      by_cases hreq : pyStrip t = "required"
      · have hstep : typeReqStep acc t = (acc.1, true) := by
          simp only [typeReqStep]
          rw [if_pos hres, if_pos hreq]
        rw [hstep]
        obtain ⟨ih1, ih2⟩ := ih (acc.1, true)
        refine ⟨ih1, ?_⟩
        rw [ih2]
        simp [hreq]
      · have hstep : typeReqStep acc t = acc := by
          simp only [typeReqStep]
          rw [if_pos hres, if_neg hreq]
        rw [hstep]
        obtain ⟨ih1, ih2⟩ := ih acc
        refine ⟨ih1, ?_⟩
        rw [ih2]
        simp [hreq]
    · have hreq : ¬ (pyStrip t = "required") := by
        intro hc
        apply hres
        rw [hc]
        rfl
      have hfilter : List.filter (fun t => !msonReserved.contains t)
          (pyStrip t :: toks.map pyStrip) =
          pyStrip t :: List.filter (fun t => !msonReserved.contains t) (toks.map pyStrip) := by
        rw [List.filter_cons, if_pos (by simp [Bool.not_eq_true] at hres ⊢; exact hres)]
      have hstep : typeReqStep acc t = (some (pyStrip t), acc.2) := by
        simp only [typeReqStep]
        rw [if_neg hres]
      rw [hfilter, hstep]
      obtain ⟨ih1, ih2⟩ := ih (some (pyStrip t), acc.2)
      constructor
      · rw [ih1, getLast?_cons_or, Option.or_assoc, Option.or_some]
      · rw [ih2]
        simp [hreq]

/-- C6 (counterexample): on `'+ x (foo, bar)'` — two non-reserved
attribute tokens — the parsed type is the *last* one, `"bar"`, not the
first as the claim states. -/
theorem C6_counterexample :
    parse_property_member_declaration "+ x (foo, bar)" =
      .ok (.mk "x" (some "bar") false none [] []) ∧
    (some "bar" : Option String) ≠ some "foo" := by
  exact ⟨rfl, by decide⟩

/-- C6 (amended): for every property declaration line with a
parenthesised comma-separated attribute list, the parsed type is the
*last* comma-separated token (stripped) that is not reserved — later
non-reserved tokens overwrite earlier ones — absent when there is none;
and `required` is true iff some token strips to exactly `required`. -/
theorem C6_attribute_list (s : String) (g : PropGroups) (L : List Char)
    (hmatch : propertyLineMatch s.data = some g) (hL : g.typeList = some L) :
    parse_property_member_declaration s =
      .ok (.mk (String.mk g.name)
        ((((splitOnChar ',' L).map (fun cs => (⟨cs⟩ : String))).map pyStrip).filter
          (fun t => !msonReserved.contains t)).getLast?
        (((splitOnChar ',' L).map (fun cs => (⟨cs⟩ : String))).any
          (fun t => pyStrip t = "required"))
        (g.desc.map (fun d => String.mk d)) [] []) := by
  have hs : s ≠ "" := by
    intro hc
    subst hc
    have hnone : propertyLineMatch ("" : String).data = none := rfl
    rw [hnone] at hmatch
    exact Option.noConfusion hmatch
  unfold parse_property_member_declaration
  rw [if_neg hs, hmatch]
  dsimp only
  rw [hL]
  obtain ⟨h1, h2⟩ := typeReqStep_foldl
    ((splitOnChar ',' L).map (fun cs => (⟨cs⟩ : String))) (none, false)
  dsimp only
  rw [h1, h2, Option.or_none, Bool.false_or]

/-- Witness for `C6_attribute_list` on `'+ x (a, required)'`. -/
theorem C6_attribute_list_witness :
    parse_property_member_declaration "+ x (a, required)" =
      .ok (.mk "x"
        ((((splitOnChar ',' ("a, required").data).map (fun cs => (⟨cs⟩ : String))).map
            pyStrip).filter (fun t => !msonReserved.contains t)).getLast?
        (((splitOnChar ',' ("a, required").data).map (fun cs => (⟨cs⟩ : String))).any
          (fun t => pyStrip t = "required"))
        ((none : Option (List Char)).map (fun d => String.mk d)) [] []) :=
  C6_attribute_list "+ x (a, required)" ⟨"x".data, some ("a, required").data, none⟩
    ("a, required").data rfl rfl

/-- C7 (counterexample): parsing `'+ id (string, required) - the identifier'`
does not give the claimed description `"the identifier"`: the space after
the dash is captured and never stripped. -/
theorem C7_counterexample :
    parse_property_member_declaration "+ id (string, required) - the identifier" ≠
      .ok (.mk "id" (some "string") true (some "the identifier") [] []) := by
  have h : parse_property_member_declaration "+ id (string, required) - the identifier" =
      .ok (.mk "id" (some "string") true (some " the identifier") [] []) := rfl
  rw [h]
  intro hc
  injection hc with h1
  injection h1 with hn ht hr hd hsub hv
  exact absurd hd (by decide)

/-- C7 (amended): parsing `'+ id (string, required) - the identifier'`
yields name `"id"`, type `"string"`, `required = true`, and description
`" the identifier"` — the text after the dash with its leading space
preserved, because the parser stores the captured group unstripped. -/
theorem C7_property_scenario :
    parse_property_member_declaration "+ id (string, required) - the identifier" =
      .ok (.mk "id" (some "string") true (some " the identifier") [] []) := rfl

/-! ## Claim C8: `extract_markdown_header_dict` (lines 583–603)

The function strips leading `'#'` and surrounding whitespace, then tries
the regex `(.*) \[(\w*) (.*)\]` (name, method, uriTemplate) and falls
back to `(.*) \[(.*)\]` (name, uriTemplate); a failure of both is an
uncaught `AttributeError` (`None.groups()`), modelled as `none`.

Both patterns are anchored at the start only (`re.match`), with greedy
`(.*)` groups: group 1 extends to the *last* viable `" ["`, and the last
`(.*)\]` extends to the last `']'` on the line.  The backtracking is
embedded recursively: preferring the recursive call (= a later split)
implements greediness; inner choices are forced because `\w*` cannot be
followed by anything but the literal space (shortening it exposes a word
character), exactly as in the Python engine. -/

/-- The result dictionary of `extract_markdown_header_dict`. -/
structure HeaderDict where
  name : String
  method : Option String := none
  uriTemplate : String
deriving DecidableEq, Repr

/-- `(\w*) (.*)\]` after the literal `" ["` of the first pattern:
maximal word run, a space, then greedy-to-last-`']'`. -/
def p1after (cs : List Char) : Option (List Char × List Char) :=
  let m := cs.takeWhile wordChar
  match cs.drop m.length with
  | ' ' :: rest => (dotStarThen ']' rest).map (fun p => (m, p.1))
  | _ => none

/-- One step of `p1match`: prefer the (greedy) deeper match `rec`; else
anchor the literal `" ["` here. -/
def p1step (c : Char) (rec : Option (List Char × List Char × List Char))
    (rest : List Char) : Option (List Char × List Char × List Char) :=
  match rec with
  | some (n, m, u) => some (c :: n, m, u)
  | none =>
    match c, rest with
    | ' ', '[' :: cs => (p1after cs).map (fun p => (([] : List Char), p.1, p.2))
    | _, _ => none

/-- Anchored match of `(.*) \[(\w*) (.*)\]`, returning
`(name, method, uriTemplate)`. -/
def p1match : List Char → Option (List Char × List Char × List Char)
  | [] => none
  | c :: rest => p1step c (if c = '\n' then none else p1match rest) rest

/-- One step of `p2match`. -/
def p2step (c : Char) (rec : Option (List Char × List Char))
    (rest : List Char) : Option (List Char × List Char) :=
  match rec with
  | some (n, u) => some (c :: n, u)
  | none =>
    match c, rest with
    | ' ', '[' :: cs => (dotStarThen ']' cs).map (fun p => (([] : List Char), p.1))
    | _, _ => none

/-- Anchored match of `(.*) \[(.*)\]`, returning `(name, uriTemplate)`. -/
def p2match : List Char → Option (List Char × List Char)
  | [] => none
  | c :: rest => p2step c (if c = '\n' then none else p2match rest) rest

def extract_markdown_header_dict (s : String) : Option HeaderDict :=
  let cs := stripChars (s.data.dropWhile (fun c => c = '#'))
  match p1match cs with
  | some (n, m, u) => some ⟨⟨n⟩, some ⟨m⟩, ⟨u⟩⟩
  | none => (p2match cs).map (fun p => ⟨⟨p.1⟩, none, ⟨p.2⟩⟩)

example : extract_markdown_header_dict "Name [GET /a/b]" =
    some { name := "Name", method := some "GET", uriTemplate := "/a/b" } := by decide
example : extract_markdown_header_dict "#### Users [/users/{id}]" =
    some { name := "Users", method := none, uriTemplate := "/users/{id}" } := by decide

/-- Whether the list contains the two-character subsequence `" ["` —
the only place either header pattern can anchor its bracket. -/
def hasSpaceBracket : List Char → Bool
  | [] => false
  | [_] => false
  | c :: d :: rest => (c = ' ' && d = '[') || hasSpaceBracket (d :: rest)

theorem hasSpaceBracket_false_of_not_mem (c : Char) (rest : List Char)
    (h : '[' ∉ rest) : hasSpaceBracket (c :: rest) = false := by
  induction rest generalizing c with
  | nil => rfl
  | cons d t ih =>
    have hd : ¬ (d = '[') := fun hc => h (hc ▸ List.mem_cons_self d t)
    have ht := ih d (fun hc => h (List.mem_cons_of_mem _ hc))
    simp only [hasSpaceBracket]
    rw [ht]
    simp [hd]

theorem hasSpaceBracket_tail (c : Char) (rest : List Char)
    (h : hasSpaceBracket (c :: rest) = false) : hasSpaceBracket rest = false := by
  cases rest with
  | nil => rfl
  | cons d t =>
    simp only [hasSpaceBracket, Bool.or_eq_false_iff] at h
    exact h.2

theorem hasSpaceBracket_head (c d : Char) (t : List Char)
    (h : hasSpaceBracket (c :: d :: t) = false) : ¬ (c = ' ' ∧ d = '[') := by
  simp only [hasSpaceBracket, Bool.or_eq_false_iff, Bool.and_eq_false_iff] at h
  intro hc
  rcases h.1 with h' | h'
  · exact absurd hc.1 (by simpa using h')
  · exact absurd hc.2 (by simpa using h')

theorem p1step_none (c : Char) (rest : List Char)
    (h : ¬ (c = ' ' ∧ rest.head? = some '[')) :
    p1step c none rest = none := by
  show (match c, rest with
    | ' ', '[' :: cs => (p1after cs).map (fun p => (([] : List Char), p.1, p.2))
    | _, _ => none) = none
  split
  · exact absurd ⟨rfl, rfl⟩ h
  · rfl

theorem p2step_none (c : Char) (rest : List Char)
    (h : ¬ (c = ' ' ∧ rest.head? = some '[')) :
    p2step c none rest = none := by
  show (match c, rest with
    | ' ', '[' :: cs => (dotStarThen ']' cs).map (fun p => (([] : List Char), p.1))
    | _, _ => none) = none
  split
  · exact absurd ⟨rfl, rfl⟩ h
  · rfl

theorem head_not_bracket_of_no_pair (c : Char) (rest : List Char)
    (h : hasSpaceBracket (c :: rest) = false) :
    ¬ (c = ' ' ∧ rest.head? = some '[') := by
  intro hc
  cases rest with
  | nil => exact Option.noConfusion hc.2
  | cons d t =>
    have hd : d = '[' := by
      have := hc.2
      simp only [List.head?_cons] at this
      injection this
    exact hasSpaceBracket_head c d t h ⟨hc.1, hd⟩

theorem p1match_none_of_no_bracket (l : List Char)
    (h : hasSpaceBracket l = false) : p1match l = none := by
  induction l with
  | nil => rfl
  | cons c rest ih =>
    unfold p1match
    rw [ih (hasSpaceBracket_tail c rest h)]
    have hnil : (if c = '\n' then none else
        (none : Option (List Char × List Char × List Char))) = none := by
      split <;> rfl
    rw [hnil]
    exact p1step_none c rest (head_not_bracket_of_no_pair c rest h)

theorem p2match_none_of_no_bracket (l : List Char)
    (h : hasSpaceBracket l = false) : p2match l = none := by
  induction l with
  | nil => rfl
  | cons c rest ih =>
    unfold p2match
    rw [ih (hasSpaceBracket_tail c rest h)]
    have hnil : (if c = '\n' then none else
        (none : Option (List Char × List Char))) = none := by
      split <;> rfl
    rw [hnil]
    exact p2step_none c rest (head_not_bracket_of_no_pair c rest h)

theorem takeWhile_append_all {p : Char → Bool} (m rest : List Char)
    (h : ∀ c ∈ m, p c) : (m ++ rest).takeWhile p = m ++ rest.takeWhile p := by
  induction m with
  | nil => simp
  | cons c t ih =>
    rw [List.cons_append, List.takeWhile_cons_of_pos (h c (List.mem_cons_self c t)),
      ih (fun c' hc' => h c' (List.mem_cons_of_mem _ hc')), List.cons_append]

theorem dotStarThen_append_single (u : List Char) (t : Char)
    (hu : t ∉ u) (hnl : '\n' ∉ u) :
    dotStarThen t (u ++ [t]) = some (u, []) := by
  induction u with
  | nil =>
    show dotStarStep t t (if t = '\n' then none else dotStarThen t []) [] = some ([], [])
    have h1 : (if t = '\n' then none else dotStarThen t ([] : List Char)) = none := by
      split <;> rfl
    rw [h1]
    unfold dotStarStep
    simp
  | cons c u' ih =>
    have hc : ¬ (c = '\n') := fun hcc => hnl (hcc ▸ List.mem_cons_self c u')
    show dotStarStep t c (if c = '\n' then none else dotStarThen t (u' ++ [t])) (u' ++ [t]) =
      some (c :: u', [])
    rw [if_neg hc, ih (fun hm => hu (List.mem_cons_of_mem _ hm))
      (fun hm => hnl (List.mem_cons_of_mem _ hm))]
    rfl

theorem p1after_full (m u : List Char) (hm : ∀ c ∈ m, wordChar c)
    (huRb : ']' ∉ u) (huNl : '\n' ∉ u) :
    p1after (m ++ ' ' :: (u ++ [']'])) = some (m, u) := by
  have ht : (m ++ ' ' :: (u ++ [']'])).takeWhile wordChar = m := by
    rw [takeWhile_append_all m _ hm, List.takeWhile_cons_of_neg (by decide)]
    simp
  show (match (m ++ ' ' :: (u ++ [']'])).drop
      ((m ++ ' ' :: (u ++ [']'])).takeWhile wordChar).length with
    | ' ' :: rest => (dotStarThen ']' rest).map
        (fun p => ((m ++ ' ' :: (u ++ [']'])).takeWhile wordChar, p.1))
    | _ => none) = some (m, u)
  rw [ht, List.drop_left]
  show (dotStarThen ']' (u ++ [']'])).map (fun p => (m, p.1)) = some (m, u)
  rw [dotStarThen_append_single u ']' huRb huNl]
  rfl

theorem p1match_full (n m u : List Char)
    (hnNl : '\n' ∉ n) (hm : ∀ c ∈ m, wordChar c)
    (huBr : '[' ∉ u) (huRb : ']' ∉ u) (huNl : '\n' ∉ u) :
    p1match (n ++ ' ' :: '[' :: (m ++ ' ' :: (u ++ [']']))) = some (n, m, u) := by
  induction n with
  | nil =>
    simp only [List.nil_append]
    have hrec : p1match ('[' :: (m ++ ' ' :: (u ++ [']']))) = none := by
      apply p1match_none_of_no_bracket
      apply hasSpaceBracket_false_of_not_mem
      intro hmem
      rcases List.mem_append.mp hmem with hmem | hmem
      · have := hm _ hmem
        exact absurd this (by decide)
      · rcases List.mem_cons.mp hmem with hmem | hmem
        · exact absurd hmem (by decide)
        · rcases List.mem_append.mp hmem with hmem | hmem
          · exact huBr hmem
          · rcases List.mem_cons.mp hmem with hmem | hmem
            · exact absurd hmem (by decide)
            · simp at hmem
    show p1step ' ' (if (' ' = '\n') then none
      else p1match ('[' :: (m ++ ' ' :: (u ++ [']'])))) ('[' :: (m ++ ' ' :: (u ++ [']']))) =
      some ([], m, u)
    rw [if_neg (by decide), hrec]
    show (p1after (m ++ ' ' :: (u ++ [']']))).map
      (fun p => (([] : List Char), p.1, p.2)) = some ([], m, u)
    rw [p1after_full m u hm huRb huNl]
    rfl
  | cons c n' ih =>
    have hc : ¬ (c = '\n') := fun hcc => hnNl (hcc ▸ List.mem_cons_self c n')
    show p1step c (if (c = '\n') then none
      else p1match (n' ++ ' ' :: '[' :: (m ++ ' ' :: (u ++ [']'])))) _ = some (c :: n', m, u)
    rw [if_neg hc, ih (fun hmm => hnNl (List.mem_cons_of_mem _ hmm))]
    rfl

theorem dropWhile_word_head_ne_space (u : List Char) (huSp : ' ' ∉ u) :
    ((u ++ [']']).dropWhile wordChar).head? ≠ some ' ' := by
  induction u with
  | nil => decide
  | cons c u' ih =>
    by_cases hw : wordChar c
    · rw [List.cons_append, List.dropWhile_cons_of_pos hw]
      exact ih (fun hmm => huSp (List.mem_cons_of_mem _ hmm))
    · rw [List.cons_append, List.dropWhile_cons_of_neg hw]
      intro hc
      simp only [List.head?_cons, Option.some.injEq] at hc
      exact huSp (hc ▸ List.mem_cons_self c u')

theorem drop_takeWhile_eq_dropWhile {p : Char → Bool} (l : List Char) :
    l.drop (l.takeWhile p).length = l.dropWhile p := by
  induction l with
  | nil => rfl
  | cons c t ih =>
    by_cases h : p c
    · rw [List.takeWhile_cons_of_pos h, List.dropWhile_cons_of_pos h,
        List.length_cons, List.drop_succ_cons, ih]
    · rw [List.takeWhile_cons_of_neg h, List.dropWhile_cons_of_neg h,
        List.length_nil, List.drop_zero]

theorem p1after_none_of_no_space (u : List Char) (huSp : ' ' ∉ u) :
    p1after (u ++ [']']) = none := by
  show (match (u ++ [']']).drop ((u ++ [']']).takeWhile wordChar).length with
    | ' ' :: rest => (dotStarThen ']' rest).map
        (fun p => ((u ++ [']']).takeWhile wordChar, p.1))
    | _ => none) = none
  rw [drop_takeWhile_eq_dropWhile]
  split
  · next heq =>
    exact absurd (by rw [heq]; rfl) (dropWhile_word_head_ne_space u huSp)
  · rfl

theorem p1match_none_nomethod (n u : List Char)
    (hnBr : '[' ∉ n) (hnNl : '\n' ∉ n)
    (huBr : '[' ∉ u) (huSp : ' ' ∉ u) :
    p1match (n ++ ' ' :: '[' :: (u ++ [']'])) = none := by
  induction n with
  | nil =>
    simp only [List.nil_append]
    have hrec : p1match ('[' :: (u ++ [']'])) = none := by
      apply p1match_none_of_no_bracket
      apply hasSpaceBracket_false_of_not_mem
      intro hmem
      rcases List.mem_append.mp hmem with hmem | hmem
      · exact huBr hmem
      · rcases List.mem_cons.mp hmem with hmem | hmem
        · exact absurd hmem (by decide)
        · simp at hmem
    show p1step ' ' (if (' ' = '\n') then none
      else p1match ('[' :: (u ++ [']']))) ('[' :: (u ++ [']'])) = none
    rw [if_neg (by decide), hrec]
    show (p1after (u ++ [']'])).map (fun p => (([] : List Char), p.1, p.2)) = none
    rw [p1after_none_of_no_space u huSp]
    rfl
  | cons c n' ih =>
    have hc : ¬ (c = '\n') := fun hcc => hnNl (hcc ▸ List.mem_cons_self c n')
    show p1step c (if (c = '\n') then none
      else p1match (n' ++ ' ' :: '[' :: (u ++ [']'])))
      (n' ++ ' ' :: '[' :: (u ++ [']'])) = none
    rw [if_neg hc, ih (fun hmm => hnBr (List.mem_cons_of_mem _ hmm))
      (fun hmm => hnNl (List.mem_cons_of_mem _ hmm))]
    apply p1step_none
    intro hcc
    cases n' with
    | nil =>
      simp only [List.nil_append, List.head?_cons, Option.some.injEq] at hcc
      exact absurd hcc.2 (by decide)
    | cons d t =>
      simp only [List.cons_append, List.head?_cons, Option.some.injEq] at hcc
      exact hnBr (hcc.2 ▸ List.mem_cons_of_mem c (List.mem_cons_self d t))

theorem p2match_full (n u : List Char)
    (hnNl : '\n' ∉ n) (huBr : '[' ∉ u) (huRb : ']' ∉ u) (huNl : '\n' ∉ u) :
    p2match (n ++ ' ' :: '[' :: (u ++ [']'])) = some (n, u) := by
  induction n with
  | nil =>
    simp only [List.nil_append]
    have hrec : p2match ('[' :: (u ++ [']'])) = none := by
      apply p2match_none_of_no_bracket
      apply hasSpaceBracket_false_of_not_mem
      intro hmem
      rcases List.mem_append.mp hmem with hmem | hmem
      · exact huBr hmem
      · rcases List.mem_cons.mp hmem with hmem | hmem
        · exact absurd hmem (by decide)
        · simp at hmem
    show p2step ' ' (if (' ' = '\n') then none
      else p2match ('[' :: (u ++ [']']))) ('[' :: (u ++ [']'])) = some ([], u)
    rw [if_neg (by decide), hrec]
    show (dotStarThen ']' (u ++ [']'])).map (fun p => (([] : List Char), p.1)) =
      some ([], u)
    rw [dotStarThen_append_single u ']' huRb huNl]
    rfl
  | cons c n' ih =>
    have hc : ¬ (c = '\n') := fun hcc => hnNl (hcc ▸ List.mem_cons_self c n')
    show p2step c (if (c = '\n') then none
      else p2match (n' ++ ' ' :: '[' :: (u ++ [']'])))
      (n' ++ ' ' :: '[' :: (u ++ [']'])) = some (c :: n', u)
    rw [if_neg hc, ih (fun hmm => hnNl (List.mem_cons_of_mem _ hmm))]
    rfl

theorem stripChars_eq_self (l : List Char)
    (h1 : ∀ c ∈ l.head?, pyWhitespace c = false)
    (h2 : ∀ c ∈ l.getLast?, pyWhitespace c = false) : stripChars l = l := by
  unfold stripChars
  have e1 : l.dropWhile pyWhitespace = l := by
    cases l with
    | nil => rfl
    | cons c t =>
      rw [List.dropWhile_cons_of_neg]
      simp only [Bool.not_eq_true]
      exact h1 c (by simp)
  rw [e1]
  have e2 : l.reverse.dropWhile pyWhitespace = l.reverse := by
    cases hrev : l.reverse with
    | nil => rfl
    | cons c t =>
      have hlast : l.getLast? = some c := by
        rw [← List.head?_reverse, hrev]
        rfl
      rw [List.dropWhile_cons_of_neg]
      simp only [Bool.not_eq_true]
      exact h2 c (by rw [hlast]; rfl)
  rw [e2, List.reverse_reverse]

/-- C8 (confirmed): for every valid header string `n ++ " [" ++ m ++ " "
++ u ++ "]"` — `n` a nonempty name whose first character is neither a
`'#'` nor whitespace, `m` a word-character method token, `u` a URI
template containing no brackets — header-identity extraction returns
`{name, method, uriTemplate}`; for `n ++ " [" ++ u ++ "]"` with no space
in `u` it returns `{name, uriTemplate}` with no method key
(`method = none`). -/
theorem C8_header_extraction :
    (∀ n m u : String,
      n ≠ "" →
      (∀ c ∈ n.data.head?, c ≠ '#' ∧ pyWhitespace c = false) →
      '\n' ∉ n.data →
      (∀ c ∈ m.data, wordChar c) →
      '[' ∉ u.data → ']' ∉ u.data → '\n' ∉ u.data →
      extract_markdown_header_dict (n ++ " [" ++ m ++ " " ++ u ++ "]") =
        some { name := n, method := some m, uriTemplate := u }) ∧
    (∀ n u : String,
      n ≠ "" →
      (∀ c ∈ n.data.head?, c ≠ '#' ∧ pyWhitespace c = false) →
      '[' ∉ n.data → '\n' ∉ n.data →
      '[' ∉ u.data → ']' ∉ u.data → ' ' ∉ u.data → '\n' ∉ u.data →
      extract_markdown_header_dict (n ++ " [" ++ u ++ "]") =
        some { name := n, method := none, uriTemplate := u }) := by
  constructor
  · intro n m u hne hhead hnNl hm huBr huRb huNl
    have hdata : (n ++ " [" ++ m ++ " " ++ u ++ "]").data =
        n.data ++ ' ' :: '[' :: (m.data ++ ' ' :: (u.data ++ [']'])) := by
      simp [String.data_append]
    cases hn : n.data with
    | nil => exact absurd (by cases n; simp_all) hne
    | cons c₀ ntail =>
      obtain ⟨hc₀hash, hc₀ws⟩ := hhead c₀ (by rw [hn]; rfl)
      unfold extract_markdown_header_dict
      dsimp only
      rw [hdata, hn, List.cons_append, List.dropWhile_cons_of_neg (by
        simp only [decide_eq_true_eq]
        exact hc₀hash)]
      rw [stripChars_eq_self _ (by
          intro c hc
          simp only [List.head?_cons, Option.mem_def, Option.some.injEq] at hc
          rw [← hc]
          exact hc₀ws)
        (by
          intro c hc
          have hl : (c₀ :: (ntail ++ ' ' :: '[' :: (m.data ++ ' ' :: (u.data ++ [']'])))).getLast?
              = some ']' := by
            have he : c₀ :: (ntail ++ ' ' :: '[' :: (m.data ++ ' ' :: (u.data ++ [']']))) =
                (c₀ :: (ntail ++ ' ' :: '[' :: (m.data ++ ' ' :: u.data))) ++ [']'] := by
              simp
            rw [he, List.getLast?_concat]
          rw [hl] at hc
          simp only [Option.mem_def, Option.some.injEq] at hc
          rw [← hc]
          rfl)]
      rw [← List.cons_append, ← hn,
        p1match_full n.data m.data u.data hnNl hm huBr huRb huNl]
  · intro n u hne hhead hnBr hnNl huBr huRb huSp huNl
    have hdata : (n ++ " [" ++ u ++ "]").data =
        n.data ++ ' ' :: '[' :: (u.data ++ [']']) := by
      simp [String.data_append]
    cases hn : n.data with
    | nil => exact absurd (by cases n; simp_all) hne
    | cons c₀ ntail =>
      obtain ⟨hc₀hash, hc₀ws⟩ := hhead c₀ (by rw [hn]; rfl)
      unfold extract_markdown_header_dict
      dsimp only
      rw [hdata, hn, List.cons_append, List.dropWhile_cons_of_neg (by
        simp only [decide_eq_true_eq]
        exact hc₀hash)]
      rw [stripChars_eq_self _ (by
          intro c hc
          simp only [List.head?_cons, Option.mem_def, Option.some.injEq] at hc
          rw [← hc]
          exact hc₀ws)
        (by
          intro c hc
          have hl : (c₀ :: (ntail ++ ' ' :: '[' :: (u.data ++ [']']))).getLast?
              = some ']' := by
            have he : c₀ :: (ntail ++ ' ' :: '[' :: (u.data ++ [']'])) =
                (c₀ :: (ntail ++ ' ' :: '[' :: u.data)) ++ [']'] := by
              simp
            rw [he, List.getLast?_concat]
          rw [hl] at hc
          simp only [Option.mem_def, Option.some.injEq] at hc
          rw [← hc]
          rfl)]
      rw [← List.cons_append, ← hn,
        p1match_none_nomethod n.data u.data hnBr hnNl huBr huSp,
        p2match_full n.data u.data hnNl huBr huRb huNl]
      rfl

/-- Witness for `C8_header_extraction` at the claim's example headers. -/
theorem C8_header_extraction_witness :
    extract_markdown_header_dict ("Name" ++ " [" ++ "GET" ++ " " ++ "/a/b" ++ "]") =
      some { name := "Name", method := some "GET", uriTemplate := "/a/b" } ∧
    extract_markdown_header_dict ("Name" ++ " [" ++ "/a/b" ++ "]") =
      some { name := "Name", method := none, uriTemplate := "/a/b" } := by
  constructor
  · exact C8_header_extraction.1 "Name" "GET" "/a/b" (by decide) (by decide)
      (by decide) (by decide) (by decide) (by decide) (by decide)
  · exact C8_header_extraction.2 "Name" "/a/b" (by decide) (by decide)
      (by decide) (by decide) (by decide) (by decide) (by decide) (by decide)

/-! ## Claim C9: silent no-op on parameter-value resolution miss
(`add_description_to_json_parameter_value`, lines 412–455)

The Python function locates a resource or action by the header-identity
key, then the parameter by name and the value by name, and overwrites
that value's description; every loop keeps the *last* match (the inner
`break` only leaves the innermost loop).  The in-place mutation is
modelled as an indexed functional update. -/

/-- The double loop of `add_description_to_json_object_parameter_value`:
the indices of the last `(parameter, value)` pair whose names match. -/
def lastParamValueIdx (params : List Parameter) (pname vname : String) :
    Option (Nat × Nat) :=
  params.enum.foldl (fun acc pi =>
    if pi.2.name = pname then
      pi.2.values.enum.foldl (fun acc2 vj =>
        if vj.2.value = vname then some (pi.1, vj.1) else acc2) acc
    else acc) none

def add_description_to_json_object_parameter_value (params : List Parameter)
    (pname vname vdesc : String) : List Parameter :=
  match lastParamValueIdx params pname vname with
  | none => params
  | some (i, j) =>
    params.enum.map (fun pi =>
      if pi.1 = i then
        { pi.2 with values := pi.2.values.enum.map (fun vj =>
            if vj.1 = j then { vj.2 with description := some vdesc } else vj.2) }
      else pi.2)

def actionMatches (w : HeaderDict) (mth : String) (a : Action) : Bool :=
  a.name = w.name && a.method = mth && a.attrUriTemplate = w.uriTemplate

def resourceMatches (w : HeaderDict) (r : Resource) : Bool :=
  r.name = w.name && r.uriTemplate = w.uriTemplate

/-- The action-search loops of the `'method' in wanted_object` branch:
the `break` leaves only the innermost loop, so the last group/resource
with a match wins, with its first matching action. -/
def findActionLoc (ast : BlueprintAST) (w : HeaderDict) (mth : String) :
    Option (Nat × Nat × Nat) :=
  ast.resourceGroups.enum.foldl (fun acc gp =>
    gp.2.resources.enum.foldl (fun acc2 rp =>
      match rp.2.actions.enum.find? (fun ap => actionMatches w mth ap.2) with
      | some ap => some (gp.1, rp.1, ap.1)
      | none => acc2) acc) none

/-- The resource-search loops of the no-method branch: the `break`
leaves the resources loop, so each group contributes its first matching
resource and the last group with a match wins. -/
def findResourceLoc (ast : BlueprintAST) (w : HeaderDict) : Option (Nat × Nat) :=
  ast.resourceGroups.enum.foldl (fun acc gp =>
    match gp.2.resources.enum.find? (fun rp => resourceMatches w rp.2) with
    | some rp => some (gp.1, rp.1)
    | none => acc) none

/-- Functional update of the resource at `(gi, ri)`. -/
def updateResourceAt (ast : BlueprintAST) (gi ri : Nat) (f : Resource → Resource) :
    BlueprintAST :=
  { ast with resourceGroups := ast.resourceGroups.enum.map (fun gp =>
      if gp.1 = gi then
        { gp.2 with resources := gp.2.resources.enum.map (fun rp =>
            if rp.1 = ri then f rp.2 else rp.2) }
      else gp.2) }

def add_description_to_json_parameter_value (ast : BlueprintAST)
    (header pname vname vdesc : String) : Option BlueprintAST :=
  match extract_markdown_header_dict header with
  | none => none
  | some w =>
    match w.method with
    | some mth =>
      match findActionLoc ast w mth with
      | none => some ast
      | some (gi, ri, ai) =>
        some (updateResourceAt ast gi ri (fun r =>
          { r with actions := r.actions.enum.map (fun ap =>
              if ap.1 = ai then
                { ap.2 with parameters := (add_description_to_json_object_parameter_value
                    ap.2.parameters pname vname vdesc) }
              else ap.2) }))
    | none =>
      match findResourceLoc ast w with
      | none => some ast
      | some (gi, ri) =>
        some (updateResourceAt ast gi ri (fun r =>
          { r with parameters := (add_description_to_json_object_parameter_value
              r.parameters pname vname vdesc) }))

/-- The parameter list of the AST node the header key resolves to, if
any. -/
def locParams (ast : BlueprintAST) (w : HeaderDict) : Option (List Parameter) :=
  match w.method with
  | some mth =>
    (findActionLoc ast w mth).bind (fun l =>
      (getResource ast l.1 l.2.1).bind (fun r =>
        (r.actions[l.2.2]?).map (fun a => a.parameters)))
  | none =>
    (findResourceLoc ast w).bind (fun l =>
      (getResource ast l.1 l.2).map (fun r => r.parameters))

theorem enumFrom_map_id {α : Type} (k : Nat) (l : List α) (f : Nat × α → α)
    (h : ∀ i a, l[i]? = some a → f (k + i, a) = a) :
    (l.enumFrom k).map f = l := by
  induction l generalizing k with
  | nil => rfl
  | cons a t ih =>
    show f (k, a) :: (t.enumFrom (k + 1)).map f = a :: t
    rw [ih (k + 1) (fun i a' ha' => by
      have hidx := h (i + 1) a' (by simpa using ha')
      rwa [show k + (i + 1) = k + 1 + i by omega] at hidx)]
    rw [show f (k, a) = a from by simpa using h 0 a (by simp)]

theorem enum_map_id {α : Type} (l : List α) (f : Nat × α → α)
    (h : ∀ i a, l[i]? = some a → f (i, a) = a) : l.enum.map f = l :=
  enumFrom_map_id 0 l f (fun i a ha => by simpa using h i a ha)

theorem add_desc_obj_of_miss (params : List Parameter) (pname vname vdesc : String)
    (h : lastParamValueIdx params pname vname = none) :
    add_description_to_json_object_parameter_value params pname vname vdesc = params := by
  unfold add_description_to_json_object_parameter_value
  rw [h]

/-- C9 (confirmed): when the owning header's identity key, the parameter
name, or the value name fails to resolve against the AST, the
parameter-value annotation leaves the AST unchanged and raises no error
(the result is `some ast`, a silent no-op). -/
theorem C9_resolution_miss (ast : BlueprintAST) (header pname vname vdesc : String)
    (w : HeaderDict) (hw : extract_markdown_header_dict header = some w)
    (hmiss : ∀ ps, locParams ast w = some ps →
      lastParamValueIdx ps pname vname = none) :
    add_description_to_json_parameter_value ast header pname vname vdesc = some ast := by
  unfold add_description_to_json_parameter_value
  rw [hw]
  dsimp only
  cases hm : w.method with
  | some mth =>
    cases hloc : findActionLoc ast w mth with
    | none =>
      dsimp only
      rw [hloc]
    | some l =>
      obtain ⟨gi, ri, ai⟩ := l
      dsimp only
      rw [hloc]
      have hupd : updateResourceAt ast gi ri (fun r =>
          { r with actions := r.actions.enum.map (fun ap =>
              if ap.1 = ai then
                { ap.2 with parameters := (add_description_to_json_object_parameter_value
                    ap.2.parameters pname vname vdesc) }
              else ap.2) }) = ast := by
        unfold updateResourceAt
        rw [enum_map_id _ _ (fun gi' g hg => by
          by_cases hgi : gi' = gi
          · subst hgi
            rw [if_pos rfl]
            dsimp only
            rw [enum_map_id _ _ (fun ri' r hr => by
              by_cases hri : ri' = ri
              · subst hri
                rw [if_pos rfl]
                dsimp only
                have hres : getResource ast gi' ri' = some r := by
                  unfold getResource
                  rw [hg]
                  dsimp only
                  exact hr
                rw [enum_map_id _ _ (fun ai' a ha => by
                  by_cases hai : ai' = ai
                  · subst hai
                    rw [if_pos rfl]
                    dsimp only
                    have hps : locParams ast w = some a.parameters := by
                      unfold locParams
                      rw [hm]
                      dsimp only
                      rw [hloc]
                      simp [hres, ha]
                    rw [add_desc_obj_of_miss _ _ _ _ (hmiss _ hps)]
                  · rw [if_neg hai])]
              · rw [if_neg hri])]
          · rw [if_neg hgi])]
      exact congrArg some hupd
  | none =>
    cases hloc : findResourceLoc ast w with
    | none => dsimp only
    | some l =>
      obtain ⟨gi, ri⟩ := l
      try dsimp only
      have hupd : updateResourceAt ast gi ri (fun r =>
          { r with parameters := (add_description_to_json_object_parameter_value
              r.parameters pname vname vdesc) }) = ast := by
        unfold updateResourceAt
        rw [enum_map_id _ _ (fun gi' g hg => by
          by_cases hgi : gi' = gi
          · subst hgi
            rw [if_pos rfl]
            dsimp only
            rw [enum_map_id _ _ (fun ri' r hr => by
              by_cases hri : ri' = ri
              · subst hri
                rw [if_pos rfl]
                dsimp only
                have hps : locParams ast w = some r.parameters := by
                  unfold locParams
                  rw [hm]
                  dsimp only
                  rw [hloc]
                  unfold getResource
                  simp [hg, hr]
                rw [add_desc_obj_of_miss _ _ _ _ (hmiss _ hps)]
              · rw [if_neg hri])]
          · rw [if_neg hgi])]
      exact congrArg some hupd

/-- Witness for `C9_resolution_miss`: a well-formed header that resolves
to nothing in a one-resource AST leaves the AST untouched. -/
theorem C9_resolution_miss_witness :
    let ast : BlueprintAST := { resourceGroups := [{ resources :=
      [{ name := "Users", uriTemplate := "/users",
         parameters := [{ name := "status", values := [{ value := "open" }] }] }] }] }
    add_description_to_json_parameter_value ast "Ghost [GET /nope]"
      "status" "open" "text" = some ast := by
  intro ast
  apply C9_resolution_miss ast "Ghost [GET /nope]" "status" "open" "text"
    { name := "Ghost", method := some "GET", uriTemplate := "/nope" } rfl
  intro ps hps
  have h0 : locParams ast { name := "Ghost", method := some "GET", uriTemplate := "/nope" } =
      none := rfl
  rw [h0] at hps
  exact Option.noConfusion hps

/-! ## Claim C3: the document splitter
(`separate_extra_sections_and_api_blueprint`, lines 60–106, plus
`print_api_spec_title_to_extra_file`, `start_apib_section`,
`preprocess_apib_parameters_lines`,
`escape_parenthesis_in_parameter_description`)

The input document is a list of newline-terminated lines (modelled
without the trailing newline).  Each loop iteration decides a `copy`
flag: a copied line goes verbatim to the extra-sections (metadata)
stream, and a *non*-copied line — including front-matter and title-phase
lines — is written, tab-expanded and parameter-preprocessed, to the API
blueprint stream. -/

/-- `line.replace('\t', '    ')`. -/
def tabExpand (l : List Char) : List Char :=
  l.flatMap (fun c => if c = '\t' then [' ', ' ', ' ', ' '] else [c])

/-- The test `re.match(r"^[ \t]*[+|-][ ]([^ +-]*)[ ]*-?(.*)$", line)`.
After the bullet and its space, the remainder of the pattern
(`([^ +-]*)[ ]*-?(.*)$`) matches every newline-free remainder (all of
its pieces may be empty and `.*` absorbs the rest), so the test reduces
to: optional spaces/tabs, one of `+`/`|`/`-`, one space. -/
def paramBulletLine (l : List Char) : Bool :=
  match l.dropWhile (fun c => c = ' ' || c = '\t') with
  | b :: ' ' :: _ => b = '+' || b = '|' || b = '-'
  | _ => false

/-- The test `re.match(r"^ *$", line)`: only spaces. -/
def blankLine (l : List Char) : Bool :=
  l.all (fun c => c = ' ')

/-- Python `parameter_definition.split(' - ', 1)`: split at the first
occurrence of the three-character separator `" - "`, if any. -/
def splitFirstSepDash : List Char → Option (List Char × List Char)
  | [] => none
  | c :: rest =>
    if c = ' ' then
      match rest with
      | '-' :: ' ' :: tail => some ([], tail)
      | _ => (splitFirstSepDash rest).map (fun p => (c :: p.1, p.2))
    else (splitFirstSepDash rest).map (fun p => (c :: p.1, p.2))

/-- `body.replace('(', "&#40;").replace(')', "&#41;")`. -/
def escapeParens (l : List Char) : List Char :=
  (l.flatMap (fun c => if c = '(' then ("&#40;").data else [c])).flatMap
    (fun c => if c = ')' then ("&#41;").data else [c])

def escape_parenthesis_in_parameter_description (l : List Char) : List Char :=
  match splitFirstSepDash l with
  | none => l
  | some (h, body) => h ++ (" - ").data ++ escapeParens body

def preprocess_apib_parameters_lines (line : List Char) (defining_parameters : Bool) :
    List Char × Bool :=
  if defining_parameters = false then
    (line, line = ("+ Parameters").data)
  else
    if paramBulletLine line || blankLine line then
      (escape_parenthesis_in_parameter_description line, true)
    else
      (line, false)

/-- The `Group` heading regex `^#*[ ]Group([ \w\W\-\_]*)$`: hashes, one
space, the literal `Group`, then anything (the class matches every
character). -/
def groupHeading (line : List Char) : Bool :=
  match line.dropWhile (fun c => c = '#') with
  | ' ' :: rest => rest.take 5 = ("Group").data
  | _ => false

/-- The resource/action heading regex `^#*[ ]([ \w\W\-\_]*) \[([ \w\W\-\_]*)\]$`:
hashes, a space, then `A ++ " [" ++ B ++ "]"` for some `A`, `B` (the
classes match every character), i.e. the rest ends in `']'` and contains
`" ["` before it. -/
def hasSubList (pat : List Char) : List Char → Bool
  | [] => pat.isEmpty
  | c :: rest => pat.isPrefixOf (c :: rest) || hasSubList pat rest

def resourceHeading (line : List Char) : Bool :=
  match line.dropWhile (fun c => c = '#') with
  | ' ' :: rest =>
    match rest.getLast? with
    | some ']' => hasSubList ((" [").data) rest.dropLast
    | _ => false
  | _ => false

/-- The direct-URI heading regex `^#*[ ]([ ]*[/][ \w\W\-\_]*)$`. -/
def directUriHeading (line : List Char) : Bool :=
  match line.dropWhile (fun c => c = '#') with
  | ' ' :: rest => (rest.dropWhile (fun c => c = ' ')).head? = some '/'
  | _ => false

def start_apib_section (line : List Char) : Bool :=
  stripChars line = ("# REST API").data ||
  stripChars line = ("## Data Structures").data ||
  groupHeading line || resourceHeading line || directUriHeading line

example : start_apib_section ("## Data Structures ").data = true := by decide
example : start_apib_section ("### Users [/users]").data = true := by decide
example : start_apib_section ("# Group Accounts").data = true := by decide
example : start_apib_section ("## Introduction").data = false := by decide

/-- The four phase flags of the splitter loop. -/
structure SplitSt where
  metadata_section : Bool
  apib_part : Bool
  title_section : Bool
  parameters_section : Bool
deriving DecidableEq, Repr

def initSplitSt : SplitSt :=
  { metadata_section := true, apib_part := false, title_section := false,
    parameters_section := false }

/-- The non-copy path of the loop body: tab expansion, parameter-line
preprocessing, write to the blueprint stream (`copy = false`). -/
def blueprintEmit (st : SplitSt) (line : List Char) : Bool × List Char × SplitSt :=
  let pr := preprocess_apib_parameters_lines (tabExpand line) st.parameters_section
  (false, pr.1, { st with parameters_section := pr.2 })

/-- One iteration of the splitter loop: returns the `copy` flag, the
line as written, and the next state. -/
def splitStep (st : SplitSt) (line : List Char) : Bool × List Char × SplitSt :=
  let st₁ := if st.metadata_section ∧ (splitOnChar ':' line).length = 1 then
      { st with metadata_section := false, title_section := true } else st
  if st₁.metadata_section then blueprintEmit st₁ line
  else
    let st₂ := if st₁.title_section ∧ line.take 2 = ['#', '#'] then
        { st₁ with title_section := false } else st₁
    if st₂.title_section then blueprintEmit st₂ line
    else
      let st₃ := if ¬ st₂.apib_part then
          { st₂ with apib_part := start_apib_section line } else st₂
      if st₃.apib_part then blueprintEmit st₃ line
      else (true, line, st₃)

/-- The routing of every line: its `copy` flag and written form. -/
def splitRoutes (st : SplitSt) : List (List Char) → List (Bool × List Char)
  | [] => []
  | line :: rest =>
    let r := splitStep st line
    (r.1, r.2.1) :: splitRoutes r.2.2 rest

/-- `print_api_spec_title_to_extra_file`: the first line beginning with
`"# "`, if any, is written to the extra-sections stream (at EOF the
empty write contributes nothing). -/
def titleExtract (lines : List (List Char)) : List (List Char) :=
  match lines.find? (fun l => l.take 2 = ['#', ' ']) with
  | some l => [l]
  | none => []

/-- The whole splitter: extra-sections stream (title extraction plus the
copied lines) and blueprint stream (the non-copied lines, transformed). -/
def separate_extra_sections_and_api_blueprint (lines : List (List Char)) :
    List (List Char) × List (List Char) :=
  let routes := splitRoutes initSplitSt lines
  (titleExtract lines ++ (routes.filter (fun p => p.1)).map (fun p => p.2),
   (routes.filter (fun p => p.1 = false)).map (fun p => p.2))

/-- The front matter, per the spec: the maximal prefix of lines that
split into more than one colon-separated part. -/
def frontMatterLen (lines : List (List Char)) : Nat :=
  (lines.takeWhile (fun l => !((splitOnChar ':' l).length = 1 : Bool))).length

/-- The title phase, per the spec: the lines after the front matter, up
to but not including the first line beginning with `"##"`. -/
def titleLines (lines : List (List Char)) : List (List Char) :=
  (lines.drop (frontMatterLen lines)).takeWhile (fun l => !(l.take 2 = ['#', '#'] : Bool))

/-- C3 (counterexample): in a four-line document the two title-phase
lines are both written to the blueprint stream, and the title line is
also written to the metadata stream by the title-extraction step — the
claim says title-phase lines reach neither stream. -/
theorem C3_counterexample :
    let doc := [("FORMAT: 1A").data, ("# My API").data, ("intro text").data,
      ("## Section").data]
    titleLines doc = [("# My API").data, ("intro text").data] ∧
    (separate_extra_sections_and_api_blueprint doc).2 =
      [("FORMAT: 1A").data, ("# My API").data, ("intro text").data] ∧
    (separate_extra_sections_and_api_blueprint doc).1 =
      [("# My API").data, ("## Section").data] := by
  refine ⟨by decide, by decide, by decide⟩

theorem splitStep_fm_continue (st : SplitSt) (line : List Char)
    (hms : st.metadata_section = true)
    (hcol : ¬ ((splitOnChar ':' line).length = 1)) :
    splitStep st line = blueprintEmit st line := by
  obtain ⟨ms, ap, ts, ps⟩ := st
  simp only at hms
  subst hms
  simp [splitStep, hcol]

theorem splitStep_fm_to_title (st : SplitSt) (line : List Char)
    (hms : st.metadata_section = true)
    (hcol : (splitOnChar ':' line).length = 1)
    (hhh : ¬ (line.take 2 = ['#', '#'])) :
    splitStep st line =
      blueprintEmit { st with metadata_section := false, title_section := true } line := by
  obtain ⟨ms, ap, ts, ps⟩ := st
  simp only at hms
  subst hms
  simp [splitStep, hcol, hhh]

theorem splitStep_title_continue (st : SplitSt) (line : List Char)
    (hms : st.metadata_section = false) (hts : st.title_section = true)
    (hhh : ¬ (line.take 2 = ['#', '#'])) :
    splitStep st line = blueprintEmit st line := by
  obtain ⟨ms, ap, ts, ps⟩ := st
  simp only at hms hts
  subst hms
  subst hts
  simp [splitStep, hhh]

/-- In the title state, every line before the first `"##"` line is
routed to the blueprint stream. -/
theorem splitRoutes_title_state (lines : List (List Char)) (st : SplitSt)
    (hms : st.metadata_section = false) (hts : st.title_section = true)
    (i : Nat)
    (hi : i < (lines.takeWhile (fun l => !(l.take 2 = ['#', '#'] : Bool))).length) :
    ((splitRoutes st lines).map Prod.fst)[i]? = some false := by
  induction lines generalizing st i with
  | nil => simp at hi
  | cons l rest ih =>
    by_cases hhh : l.take 2 = ['#', '#']
    · rw [List.takeWhile_cons_of_neg (by simp [hhh])] at hi
      simp at hi
    · rw [List.takeWhile_cons_of_pos (by simp [hhh])] at hi
      show ((((splitStep st l).1, (splitStep st l).2.1) ::
        splitRoutes (splitStep st l).2.2 rest).map Prod.fst)[i]? = some false
      rw [splitStep_title_continue st l hms hts hhh]
      cases i with
      | zero => simp [blueprintEmit]
      | succ j =>
        simp only [List.map_cons, List.getElem?_cons_succ]
        exact ih (blueprintEmit st l).2.2 hms hts j (by simpa using hi)

/-- C3 (amended): every title-phase line — from the end of the front
matter up to, but not including, the first line beginning with `"##"` —
gets `copy = false` from the splitter's main loop: it is *not* copied to
the metadata stream but *is* written (tab-expanded and
parameter-preprocessed) to the blueprint stream, which
`separate_extra_sections_and_api_blueprint` builds from exactly the
`copy = false` routes.  (Separately, `titleExtract` writes the first
`"# "`-line — typically the title — to the metadata stream.) -/
theorem C3_title_routed_to_blueprint (lines : List (List Char)) (i : Nat)
    (h1 : frontMatterLen lines ≤ i)
    (h2 : i < frontMatterLen lines + (titleLines lines).length) :
    ((splitRoutes initSplitSt lines).map Prod.fst)[i]? = some false := by
  suffices h : ∀ (lines : List (List Char)) (ps : Bool) (i : Nat),
      frontMatterLen lines ≤ i → i < frontMatterLen lines + (titleLines lines).length →
      ((splitRoutes { initSplitSt with parameters_section := ps } lines).map
        Prod.fst)[i]? = some false by
    exact h lines false i h1 h2
  intro lines
  induction lines with
  | nil =>
    intro ps i h1 h2
    exact absurd h2 (by simp [frontMatterLen, titleLines])
  | cons l rest ih =>
    intro ps i h1 h2
    by_cases hcol : (splitOnChar ':' l).length = 1
    · have hfm : frontMatterLen (l :: rest) = 0 := by
        unfold frontMatterLen
        rw [List.takeWhile_cons_of_neg (by simp [hcol])]
        rfl
      by_cases hhh : l.take 2 = ['#', '#']
      · exfalso
        have ht : titleLines (l :: rest) = [] := by
          unfold titleLines
          rw [hfm]
          show (l :: rest).takeWhile _ = []
          rw [List.takeWhile_cons_of_neg (by simp [hhh])]
        rw [hfm, ht] at h2
        simp at h2
      · have ht : titleLines (l :: rest) =
            l :: rest.takeWhile (fun l => !(l.take 2 = ['#', '#'] : Bool)) := by
          unfold titleLines
          rw [hfm]
          show (l :: rest).takeWhile _ = _
          rw [List.takeWhile_cons_of_pos (by simp [hhh])]
        show ((((splitStep _ l).1, (splitStep _ l).2.1) ::
          splitRoutes (splitStep _ l).2.2 rest).map Prod.fst)[i]? = some false
        rw [splitStep_fm_to_title _ l rfl hcol hhh]
        cases i with
        | zero => simp [blueprintEmit]
        | succ j =>
          simp only [List.map_cons, List.getElem?_cons_succ]
          apply splitRoutes_title_state rest _ rfl rfl j
          rw [hfm, ht] at h2
          simpa using h2
    · have hfm : frontMatterLen (l :: rest) = frontMatterLen rest + 1 := by
        unfold frontMatterLen
        rw [List.takeWhile_cons_of_pos (by simp [hcol])]
        rfl
      have ht : titleLines (l :: rest) = titleLines rest := by
        unfold titleLines
        rw [hfm]
        rfl
      show ((((splitStep _ l).1, (splitStep _ l).2.1) ::
        splitRoutes (splitStep _ l).2.2 rest).map Prod.fst)[i]? = some false
      rw [splitStep_fm_continue _ l rfl hcol]
      cases i with
      | zero =>
        exfalso
        rw [hfm] at h1
        omega
      | succ j =>
        simp only [List.map_cons, List.getElem?_cons_succ]
        apply ih _ j
        · rw [hfm] at h1
          omega
        · rw [hfm, ht] at h2
          omega

/-- Witness for `C3_title_routed_to_blueprint` at line 1 of a concrete
document (its title line). -/
theorem C3_title_routed_witness :
    let doc := [("K: v").data, ("# T").data, ("body line").data, ("## S").data]
    ((splitRoutes initSplitSt doc).map Prod.fst)[1]? = some false := by
  intro doc
  exact C3_title_routed_to_blueprint doc 1 (by decide) (by decide)

end Fabre
